import Mathlib

set_option maxRecDepth 100000

/-!
Verification of the Gaming-News-Scraper pipeline (src/gaming_news_scraper.py.py).

The development shallowly embeds the parts of the program the claims are
about: the MD5-based article identifier (NewsItem.__post_init__), the
history store with its capacity trim (NewsHistory.save_history), the
selector-fallback field extraction (fetch_gaming_news), the quota-driven
page loop (get_unique_news), the best-effort detail enrichment
(fetch_article_details) and the versioned content materialization
(ContentGenerator.save_content).

Machine integers are modelled as Nat with explicit reduction modulo 2^32
where the digest arithmetic wraps; the filesystem is modelled as the list
of paths that already exist; a parsed HTML fragment is modelled by its
select-one table (which selector yields which truthy element, if any).
-/

/-! ### MD5 (hashlib.md5), executable model

The program derives the article id as
hashlib.md5(f"{title}|{link}".encode("utf-8")).hexdigest().
The digest is implemented here over lists of byte values (Nat < 256),
with all 32-bit arithmetic done explicitly modulo 2^32. -/

/-- Addition of two 32-bit words, wrapping modulo 2^32. -/
def add32 (a b : Nat) : Nat := (a + b) % 4294967296

/-- Bitwise complement within 32 bits (for values below 2^32). -/
def not32 (a : Nat) : Nat := a ^^^ 4294967295

/-- Left rotation of a 32-bit word by s bits (for 0 < s < 32). -/
def rotl32 (x s : Nat) : Nat :=
  ((x * 2 ^ s) % 4294967296) ||| (x / 2 ^ (32 - s))

/-- The 64 MD5 sine-derived round constants, floor(abs(sin(i+1)) * 2^32). -/
def md5K : List Nat := [
  3614090360, 3905402710, 606105819, 3250441966, 4118548399, 1200080426, 2821735955, 4249261313,
  1770035416, 2336552879, 4294925233, 2304563134, 1804603682, 4254626195, 2792965006, 1236535329,
  4129170786, 3225465664, 643717713, 3921069994, 3593408605, 38016083, 3634488961, 3889429448,
  568446438, 3275163606, 4107603335, 1163531501, 2850285829, 4243563512, 1735328473, 2368359562,
  4294588738, 2272392833, 1839030562, 4259657740, 2763975236, 1272893353, 4139469664, 3200236656,
  681279174, 3936430074, 3572445317, 76029189, 3654602809, 3873151461, 530742520, 3299628645,
  4096336452, 1126891415, 2878612391, 4237533241, 1700485571, 2399980690, 4293915773, 2240044497,
  1873313359, 4264355552, 2734768916, 1309151649, 4149444226, 3174756917, 718787259, 3951481745]

/-- The per-round left-rotation amounts of MD5. -/
def md5S : List Nat := [
  7, 12, 17, 22, 7, 12, 17, 22, 7, 12, 17, 22, 7, 12, 17, 22,
  5, 9, 14, 20, 5, 9, 14, 20, 5, 9, 14, 20, 5, 9, 14, 20,
  4, 11, 16, 23, 4, 11, 16, 23, 4, 11, 16, 23, 4, 11, 16, 23,
  6, 10, 15, 21, 6, 10, 15, 21, 6, 10, 15, 21, 6, 10, 15, 21]

/-- The sixteen little-endian 32-bit words of one 64-byte chunk. -/
def chunkWords (c : List Nat) : List Nat :=
  (List.range 16).map (fun j =>
    c.getD (4 * j) 0 + 256 * c.getD (4 * j + 1) 0 +
      65536 * c.getD (4 * j + 2) 0 + 16777216 * c.getD (4 * j + 3) 0)

/-- One MD5 round: mixes round i into the running state (a, b, c, d). -/
def md5Round (M : List Nat) (st : Nat × Nat × Nat × Nat) (i : Nat) :
    Nat × Nat × Nat × Nat :=
  let a := st.1
  let b := st.2.1
  let c := st.2.2.1
  let d := st.2.2.2
  let fg : Nat × Nat :=
    if i < 16 then ((b &&& c) ||| (not32 b &&& d), i)
    else if i < 32 then ((d &&& b) ||| (not32 d &&& c), (5 * i + 1) % 16)
    else if i < 48 then (b ^^^ c ^^^ d, (3 * i + 5) % 16)
    else (c ^^^ (b ||| not32 d), (7 * i) % 16)
  let f := add32 (add32 (add32 fg.1 a) (md5K.getD i 0)) (M.getD fg.2 0)
  (d, add32 b (rotl32 f (md5S.getD i 0)), b, c)

/-- Digest one 64-byte chunk into the state. -/
def md5ProcessChunk (st : Nat × Nat × Nat × Nat) (c : List Nat) :
    Nat × Nat × Nat × Nat :=
  let M := chunkWords c
  let r := (List.range 64).foldl (md5Round M) st
  (add32 st.1 r.1, add32 st.2.1 r.2.1, add32 st.2.2.1 r.2.2.1, add32 st.2.2.2 r.2.2.2)

/-- Split a byte list into 64-byte chunks (fuelled so the kernel can
evaluate it; fuel one per remaining element is always enough). -/
def chunksAux : Nat → List Nat → List (List Nat)
  | 0, _ => []
  | fuel + 1, l => if l = [] then [] else l.take 64 :: chunksAux fuel (l.drop 64)

/-- Split a byte list into 64-byte chunks. -/
def chunks (l : List Nat) : List (List Nat) := chunksAux l.length l

/-- The eight little-endian bytes of the 64-bit message bit length. -/
def lenBytes (len : Nat) : List Nat :=
  (List.range 8).map (fun j => len * 8 / 2 ^ (8 * j) % 256)

/-- MD5 padding: a 0x80 byte, zeros to 56 mod 64, then the bit length. -/
def padBytes (msg : List Nat) : List Nat :=
  msg ++ 128 :: List.replicate ((119 - msg.length % 64) % 64) 0 ++ lenBytes msg.length

/-- The four low-to-high bytes of a 32-bit word. -/
def wordLE4 (x : Nat) : List Nat :=
  [x % 256, x / 256 % 256, x / 65536 % 256, x / 16777216 % 256]

/-- The 16 digest bytes of a byte message. -/
def md5Bytes (msg : List Nat) : List Nat :=
  let st := (chunks (padBytes msg)).foldl md5ProcessChunk
    (1732584193, 4023233417, 2562383102, 271733878)
  wordLE4 st.1 ++ wordLE4 st.2.1 ++ wordLE4 st.2.2.1 ++ wordLE4 st.2.2.2

/-- Lower-case hex digit of a value below 16. -/
def hexChar (n : Nat) : Char :=
  if n < 10 then Char.ofNat (48 + n) else Char.ofNat (87 + n)

/-- Lower-case hex rendering of a byte list. -/
def bytesToHex (bytes : List Nat) : String :=
  ⟨bytes.foldr (fun b acc => hexChar (b / 16) :: hexChar (b % 16) :: acc) []⟩

/-- hashlib.md5(...).hexdigest() over a byte message. -/
def md5Hex (msg : List Nat) : String := bytesToHex (md5Bytes msg)

/-- UTF-8 encoding of one character as byte values. -/
def utf8Char (c : Char) : List Nat :=
  let n := c.toNat
  if n < 128 then [n]
  else if n < 2048 then [192 + n / 64, 128 + n % 64]
  else if n < 65536 then [224 + n / 4096, 128 + n / 64 % 64, 128 + n % 64]
  else [240 + n / 262144, 128 + n / 4096 % 64, 128 + n / 64 % 64, 128 + n % 64]

/-- str.encode("utf-8") as a list of byte values. -/
def utf8Encode (s : String) : List Nat := (s.data.map utf8Char).flatten

/-- The embedded digest agrees with hashlib.md5 on the RFC 1321 empty-string
test vector. -/
theorem md5Hex_vector_empty : md5Hex (utf8Encode "") = "d41d8cd98f00b204e9800998ecf8427e" := by
  decide

/-- The embedded digest agrees with hashlib.md5 on the RFC 1321 "abc" vector. -/
theorem md5Hex_vector_abc : md5Hex (utf8Encode "abc") = "900150983cd24fb0d6963f7d28e17f72" := by
  decide

/-- The embedded digest agrees with hashlib.md5 on a multi-block, non-ASCII
title-pipe-link input of the shape NewsItem.__post_init__ hashes. -/
theorem md5Hex_vector_news :
    md5Hex (utf8Encode "Zelda: nueva entrega|https://vandal.elespanol.com/noticia/n.123") =
      "fcd6f628f68c1db539353a0d09183001" := by
  decide

/-- The embedded digest and UTF-8 encoder agree with hashlib.md5 on a
non-ASCII input (accented characters take two bytes each). -/
theorem md5Hex_vector_utf8 : md5Hex (utf8Encode "año|ñ") = "d0b60afe4f954a53fab8bb0a982c6db0" := by
  decide

/-! ### NewsItem (dataclass NewsItem, lines 71-86)

The dataclass holds title, summary, link, optional image_url, author and
published_date, and a news_id that __post_init__ fills in from the MD5 of
title, "|" and link when it is still the empty default. -/

structure NewsItem where
  title : String
  summary : String
  link : String
  image_url : Option String
  author : Option String
  published_date : Option String
  news_id : String
deriving DecidableEq

/-- NewsItem construction: the dataclass initializer followed by
__post_init__, which derives news_id from title and link alone. -/
def mkNewsItem (title summary link : String)
    (image_url author published_date : Option String) : NewsItem :=
  let item : NewsItem :=
    { title, summary, link, image_url, author, published_date, news_id := "" }
  if item.news_id = "" then
    { item with news_id := md5Hex (utf8Encode (item.title ++ "|" ++ item.link)) }
  else item

/-- C1: for every pair (title, link) the article identifier is a pure,
deterministic function of that pair alone: it is the MD5 hex digest of the
UTF-8 bytes of title, a "|" separator and link, and none of the other
fields (summary, image_url, author, published_date) influences it. -/
theorem c1_article_id_pure (t l s s' : String) (i i' a a' d d' : Option String) :
    (mkNewsItem t s l i a d).news_id = (mkNewsItem t s' l i' a' d').news_id ∧
    (mkNewsItem t s l i a d).news_id = md5Hex (utf8Encode (t ++ "|" ++ l)) :=
  ⟨rfl, rfl⟩

/-- The constructed id evaluates, on a concrete record, to the digest
hashlib.md5 computes for the same title and link. -/
theorem mkNewsItem_id_concrete :
    (mkNewsItem "Zelda: nueva entrega" "resumen"
        "https://vandal.elespanol.com/noticia/n.123" none none none).news_id =
      "fcd6f628f68c1db539353a0d09183001" := by
  decide

/-! ### NewsHistory (lines 88-129)

The Python set of seen ids is modelled by the list of its (distinct)
elements in iteration order; list(set) reads that order off, and the
capacity trim keeps the final limit-sized slice of it. -/

structure NewsHistory where
  news_ids : List String
  limit : Nat
deriving DecidableEq

/-- NewsHistory.is_duplicate: membership of the item's id in the seen set. -/
def NewsHistory.is_duplicate (h : NewsHistory) (item : NewsItem) : Bool :=
  h.news_ids.contains item.news_id

/-- NewsHistory.add_item: set insertion of the item's id. -/
def NewsHistory.add_item (h : NewsHistory) (item : NewsItem) : NewsHistory :=
  if h.news_ids.contains item.news_id then h
  else { h with news_ids := h.news_ids ++ [item.news_id] }

/-- Python's l[-k:]: the last k elements when k > 0; for k = 0 the slice
l[-0:] is l[0:], the whole list. -/
def pySliceLast {α : Type} (l : List α) (k : Nat) : List α :=
  if k = 0 then l else l.drop (l.length - k)

/-- NewsHistory.save_history, lines 110-121: when the set holds more than
limit ids, only the last limit elements of its iteration order are kept
(as the new set and as the persisted list). -/
def NewsHistory.save_history (h : NewsHistory) : NewsHistory :=
  if h.news_ids.length > h.limit then
    { h with news_ids := pySliceLast h.news_ids h.limit }
  else h

/-- C4: for a history set (distinct ids) and positive capacity, a save
retains at most capacity ids, and when more ids than the capacity were
inserted the persisted set has size exactly the capacity. -/
theorem c4_history_capacity (ids : List String) (limit : Nat)
    (hnd : ids.Nodup) (hpos : 0 < limit) :
    (NewsHistory.save_history ⟨ids, limit⟩).news_ids.toFinset.card ≤ limit ∧
    (limit < ids.length →
      (NewsHistory.save_history ⟨ids, limit⟩).news_ids.toFinset.card = limit) := by
  unfold NewsHistory.save_history pySliceLast
  simp only
  by_cases hgt : ids.length > limit
  · have hlim : limit ≠ 0 := Nat.pos_iff_ne_zero.mp hpos
    simp only [if_pos hgt, if_neg hlim]
    have hsub : (ids.drop (ids.length - limit)).Sublist ids := List.drop_sublist _ _
    have hnd2 : (ids.drop (ids.length - limit)).Nodup := hnd.sublist hsub
    have hcard : (ids.drop (ids.length - limit)).toFinset.card
        = (ids.drop (ids.length - limit)).length := List.toFinset_card_of_nodup hnd2
    have hlen : (ids.drop (ids.length - limit)).length = limit := by
      rw [List.length_drop]; omega
    constructor
    · rw [hcard, hlen]
    · intro _; rw [hcard, hlen]
  · simp only [if_neg hgt]
    constructor
    · calc ids.toFinset.card ≤ ids.length := ids.toFinset_card_le
        _ ≤ limit := by omega
    · intro hlt; omega

/-- C4 witness: saving a three-element history at capacity 2 keeps exactly
two ids. -/
theorem c4_history_capacity_witness :
    (["a", "b", "c"] : List String).Nodup ∧ 0 < 2 ∧
      ((NewsHistory.save_history ⟨["a", "b", "c"], 2⟩).news_ids.toFinset.card ≤ 2 ∧
        (2 < (["a", "b", "c"] : List String).length →
          (NewsHistory.save_history ⟨["a", "b", "c"], 2⟩).news_ids.toFinset.card = 2)) :=
  ⟨by decide, by decide, c4_history_capacity ["a", "b", "c"] 2 (by decide) (by decide)⟩

/-- C7 evidence: the subset a save keeps is a function of the set's
iteration order, not of the logical set: the same two ids iterated in the
two possible orders (both orders arise in Python, whose string hashing is
randomized per process) are trimmed at capacity 1 to different sets. -/
theorem c7_eviction_order_dependent :
    (["a", "b"] : List String).Perm ["b", "a"] ∧
    (NewsHistory.save_history ⟨["a", "b"], 1⟩).news_ids.toFinset ≠
      (NewsHistory.save_history ⟨["b", "a"], 1⟩).news_ids.toFinset := by
  refine ⟨List.Perm.swap "b" "a" [], ?_⟩
  decide

/-! ### Decimal rendering

Python renders the version counter and the per-record directory index with
str(); this fuelled renderer produces the same decimal digits and the
kernel can evaluate it. -/

/-- Decimal digit characters of n, most significant first (fuel n + 1 is
always enough). -/
def natReprAux : Nat → Nat → List Char
  | 0, _ => []
  | fuel + 1, n =>
    if n < 10 then [Nat.digitChar n]
    else natReprAux fuel (n / 10) ++ [Nat.digitChar (n % 10)]

/-- Python str(n) for a natural number. -/
def natRepr (n : Nat) : String := ⟨natReprAux (n + 1) n⟩

/-- Reading decimal digit characters back as a number. -/
def decodeDec (l : List Char) : Nat :=
  l.foldl (fun acc c => acc * 10 + (c.toNat - 48)) 0

theorem decodeDec_append (l : List Char) (c : Char) :
    decodeDec (l ++ [c]) = decodeDec l * 10 + (c.toNat - 48) := by
  simp [decodeDec, List.foldl_append]

theorem digitChar_toNat_sub (m : Nat) (h : m < 10) : (Nat.digitChar m).toNat - 48 = m := by
  interval_cases m <;> rfl

theorem decodeDec_natReprAux : ∀ fuel n, n < 10 ^ fuel →
    decodeDec (natReprAux fuel n) = n := by
  intro fuel
  induction fuel with
  | zero =>
    intro n hn
    interval_cases n
    rfl
  | succ fuel ih =>
    intro n hn
    by_cases h10 : n < 10
    · simp only [natReprAux, if_pos h10]
      have hd := digitChar_toNat_sub n h10
      simp [decodeDec, hd]
    · have hdiv : n / 10 < 10 ^ fuel := by
        apply Nat.div_lt_of_lt_mul
        calc n < 10 ^ (fuel + 1) := hn
          _ = 10 * 10 ^ fuel := by ring
      simp only [natReprAux, if_neg h10]
      rw [decodeDec_append, ih _ hdiv, digitChar_toNat_sub _ (Nat.mod_lt _ (by norm_num))]
      omega

theorem natRepr_injective : Function.Injective natRepr := by
  intro m n h
  have hm : m < 10 ^ (m + 1) :=
    lt_of_lt_of_le (Nat.lt_pow_self (by norm_num) m)
      (Nat.pow_le_pow_right (by norm_num) (Nat.le_succ m))
  have hn : n < 10 ^ (n + 1) :=
    lt_of_lt_of_le (Nat.lt_pow_self (by norm_num) n)
      (Nat.pow_le_pow_right (by norm_num) (Nat.le_succ n))
  have hdata : natReprAux (m + 1) m = natReprAux (n + 1) n := congrArg String.data h
  have := congrArg decodeDec hdata
  rwa [decodeDec_natReprAux _ _ hm, decodeDec_natReprAux _ _ hn] at this

/-! ### Versioned directory materialization (ContentGenerator.save_content,
lines 475-521)

The filesystem is modelled by the list of directory paths that already
exist. The while loop of lines 479-482 probes date_str, date_str_V1,
date_str_V2, ... until it finds a path not on disk. -/

/-- The candidate directory name the f-string "date_str_Vversion" builds. -/
def versionName (date_str : String) (v : Nat) : String :=
  date_str ++ "_V" ++ natRepr v

theorem versionName_injective (d : String) : Function.Injective (versionName d) := by
  intro v w h
  apply natRepr_injective
  have h2 : (d ++ "_V").data ++ (natRepr v).data = (d ++ "_V").data ++ (natRepr w).data := by
    have h1 := congrArg String.data h
    simpa [versionName, String.data_append] using h1
  exact String.ext (List.append_cancel_left h2)

/-- The version-probe loop of save_content: starting at version v, return
the first candidate name not on disk (fuelled; the pigeonhole argument
below shows fuel existing.length + 1 always reaches a free name). -/
def probeVersion (existing : List String) (date_str : String) : Nat → Nat → String
  | 0, v => versionName date_str v
  | fuel + 1, v =>
    if versionName date_str v ∈ existing then probeVersion existing date_str fuel (v + 1)
    else versionName date_str v

/-- The directory save_content materializes into: the bare date directory
when it is free, otherwise the first free versioned name. -/
def choose_date_dir (existing : List String) (date_str : String) : String :=
  if date_str ∈ existing then probeVersion existing date_str (existing.length + 1) 1
  else date_str

theorem probeVersion_spec (existing : List String) (d : String) :
    ∀ fuel v, (∃ k, k ≤ fuel ∧ versionName d (v + k) ∉ existing) →
    ∃ k, k ≤ fuel ∧ probeVersion existing d fuel v = versionName d (v + k) ∧
      versionName d (v + k) ∉ existing ∧ ∀ j, j < k → versionName d (v + j) ∈ existing := by
  intro fuel
  induction fuel with
  | zero =>
    intro v hex
    obtain ⟨k, hk, hfree⟩ := hex
    have hk0 : k = 0 := Nat.le_zero.mp hk
    subst hk0
    exact ⟨0, le_refl 0, rfl, hfree, fun j hj => absurd hj (Nat.not_lt_zero j)⟩
  | succ fuel ih =>
    intro v hex
    by_cases hv : versionName d v ∈ existing
    · obtain ⟨k, hk, hfree⟩ := hex
      have hkpos : k ≠ 0 := by
        intro h0; subst h0; simp at hfree; exact hfree hv
      obtain ⟨k0, rfl⟩ := Nat.exists_eq_succ_of_ne_zero hkpos
      have hfree1 : versionName d (v + 1 + k0) ∉ existing := by
        have : v + 1 + k0 = v + (k0 + 1) := by omega
        rwa [this]
      obtain ⟨k1, hk1, heq, hnotin, hall⟩ := ih (v + 1) ⟨k0, by omega, hfree1⟩
      refine ⟨k1 + 1, by omega, ?_, ?_, ?_⟩
      · simp only [probeVersion, if_pos hv]
        rw [heq]
        congr 1
        omega
      · have : v + (k1 + 1) = v + 1 + k1 := by omega
        rwa [this]
      · intro j hj
        match j with
        | 0 => simpa using hv
        | j0 + 1 =>
          have : v + (j0 + 1) = v + 1 + j0 := by omega
          rw [this]
          exact hall j0 (by omega)
    · refine ⟨0, by omega, ?_, by simpa using hv, fun j hj => absurd hj (Nat.not_lt_zero j)⟩
      simp [probeVersion, if_neg hv]

/-- Pigeonhole: among existing.length + 1 distinct candidate names at least
one is not a path that already exists. -/
theorem exists_free_version (existing : List String) (d : String) (v : Nat) :
    ∃ k, k ≤ existing.length ∧ versionName d (v + k) ∉ existing := by
  by_contra hcon
  push_neg at hcon
  have hinj : Function.Injective (fun k => versionName d (v + k)) := by
    intro a b hab
    have := versionName_injective d hab
    omega
  have hnd : ((List.range (existing.length + 1)).map (fun k => versionName d (v + k))).Nodup :=
    List.Nodup.map hinj (List.nodup_range _)
  have hcard : ((List.range (existing.length + 1)).map
      (fun k => versionName d (v + k))).toFinset.card = existing.length + 1 := by
    rw [List.toFinset_card_of_nodup hnd, List.length_map, List.length_range]
  have hsub : ((List.range (existing.length + 1)).map
      (fun k => versionName d (v + k))).toFinset ⊆ existing.toFinset := by
    intro x hx
    rw [List.mem_toFinset] at hx
    simp only [List.mem_map, List.mem_range] at hx
    obtain ⟨k, hk, rfl⟩ := hx
    exact List.mem_toFinset.mpr (hcon k (by omega))
  have hle := Finset.card_le_card hsub
  have hle2 := existing.toFinset_card_le
  omega

theorem choose_date_dir_fresh (existing : List String) (d : String) :
    choose_date_dir existing d ∉ existing := by
  unfold choose_date_dir
  by_cases hd : d ∈ existing
  · simp only [if_pos hd]
    obtain ⟨k, hk, hfree⟩ := exists_free_version existing d 1
    obtain ⟨k1, _, heq, hnotin, _⟩ :=
      probeVersion_spec existing d (existing.length + 1) 1 ⟨k, by omega, hfree⟩
    rw [heq]
    exact hnotin
  · simp only [if_neg hd]
    exact hd

/-- Everything one save_content call writes: the chosen directory, the
aggregate news.json record list (all records), the per-record
(sub-directory, caption, record) bundles produced by zip+enumerate, and
the aggregate all_captions.txt contents (all captions). -/
structure SavedContent where
  date_dir : String
  news_json : List NewsItem
  bundles : List (String × String × NewsItem)
  all_captions : List String
deriving DecidableEq

/-- ContentGenerator.save_content, lines 475-521, as a description of its
writes against the modelled filesystem state. -/
def save_content (existing : List String) (news_items : List NewsItem)
    (captions : List String) (date_str : String) : SavedContent :=
  { date_dir := choose_date_dir existing date_str
  , news_json := news_items
  , bundles := (news_items.zip captions).enum.map
      (fun p => ("noticia_" ++ natRepr (p.1 + 1), p.2.2, p.2.1))
  , all_captions := captions }

/-- C3: materialization never picks a directory that already exists: the
bare date directory when free, otherwise the first free versioned name
probed in order _V1, _V2, ...; hence two materializations for the same
date produce two distinct directories, the second fresh as well. -/
theorem c3_materializer_non_collision (existing : List String)
    (items : List NewsItem) (caps : List String) (d : String) :
    (save_content existing items caps d).date_dir ∉ existing ∧
    (d ∉ existing → (save_content existing items caps d).date_dir = d) ∧
    (d ∈ existing →
      ∃ v, 1 ≤ v ∧ (save_content existing items caps d).date_dir = versionName d v ∧
        versionName d v ∉ existing ∧
        ∀ w, 1 ≤ w → w < v → versionName d w ∈ existing) ∧
    (save_content (existing ++ [(save_content existing items caps d).date_dir])
        items caps d).date_dir ≠ (save_content existing items caps d).date_dir ∧
    (save_content (existing ++ [(save_content existing items caps d).date_dir])
        items caps d).date_dir ∉ existing := by
  have h1 := choose_date_dir_fresh existing d
  have h2 := choose_date_dir_fresh (existing ++ [choose_date_dir existing d]) d
  refine ⟨h1, ?_, ?_, ?_, ?_⟩
  · intro hd
    show choose_date_dir existing d = d
    unfold choose_date_dir
    rw [if_neg hd]
  · intro hd
    obtain ⟨k, hk, hfree⟩ := exists_free_version existing d 1
    obtain ⟨k1, hk1, heq, hnotin, hall⟩ :=
      probeVersion_spec existing d (existing.length + 1) 1 ⟨k, by omega, hfree⟩
    refine ⟨1 + k1, by omega, ?_, hnotin, ?_⟩
    · show choose_date_dir existing d = versionName d (1 + k1)
      unfold choose_date_dir
      rw [if_pos hd, heq]
    · intro w hw1 hwlt
      have hweq : 1 + (w - 1) = w := by omega
      have := hall (w - 1) (by omega)
      rwa [hweq] at this
  · show choose_date_dir (existing ++ [choose_date_dir existing d]) d ≠ choose_date_dir existing d
    intro hcontra
    apply h2
    rw [hcontra]
    exact List.mem_append_right existing (List.mem_singleton.mpr rfl)
  · show choose_date_dir (existing ++ [choose_date_dir existing d]) d ∉ existing
    intro hmem
    exact h2 (List.mem_append_left _ hmem)

/-- Scenario of the spec: a fresh day materializes into the bare date
directory, a second run the same day into the _V1 variant. -/
theorem choose_date_dir_scenario :
    choose_date_dir [] "2024-06-01" = "2024-06-01" ∧
    choose_date_dir ["2024-06-01"] "2024-06-01" = "2024-06-01_V1" := by
  constructor
  · rfl
  · decide

/-- Indexing a zip: the pair of the two indexed elements when both exist. -/
theorem zip_getElem_eq {α β : Type} : ∀ (l₁ : List α) (l₂ : List β) (i : Nat),
    (l₁.zip l₂)[i]? = match l₁[i]?, l₂[i]? with
      | some a, some b => some (a, b)
      | _, _ => none := by
  intro l₁
  induction l₁ with
  | nil =>
    intro l₂ i
    cases l₂ <;> simp
  | cons a t ih =>
    intro l₂ i
    cases l₂ with
    | nil => simp
    | cons b t2 =>
      cases i with
      | zero => simp
      | succ j => simpa using ih t2 j

/-- C10: materialization writes one sub-bundle per zipped (record, caption)
pair only — record i paired with caption i under the name noticia_(i+1) —
while the aggregate JSON holds all records and the aggregate captions file
all captions; for equal lengths the sub-directories are exactly
noticia_1 ... noticia_n in order. -/
theorem c10_bundle_pairing (existing : List String) (items : List NewsItem)
    (caps : List String) (d : String) :
    (save_content existing items caps d).news_json = items ∧
    (save_content existing items caps d).all_captions = caps ∧
    (save_content existing items caps d).bundles.length = min items.length caps.length ∧
    (∀ i it cap, items[i]? = some it → caps[i]? = some cap →
      (save_content existing items caps d).bundles[i]? =
        some ("noticia_" ++ natRepr (i + 1), cap, it)) ∧
    (items.length = caps.length →
      (save_content existing items caps d).bundles.map (fun b => b.1) =
        (List.range items.length).map (fun i => "noticia_" ++ natRepr (i + 1))) := by
  refine ⟨rfl, rfl, ?_, ?_, ?_⟩
  · show ((items.zip caps).enum.map _).length = _
    rw [List.length_map, List.enum_length, List.length_zip]
  · intro i it cap hit hcap
    show ((items.zip caps).enum.map _)[i]? = _
    rw [List.getElem?_map, List.getElem?_enum, zip_getElem_eq, hit, hcap]
    rfl
  · intro hlen
    show (((items.zip caps).enum.map _).map _) = _
    rw [List.map_map]
    have hcomp : ((fun b : String × String × NewsItem => b.1) ∘
        (fun p : Nat × (NewsItem × String) => ("noticia_" ++ natRepr (p.1 + 1), p.2.2, p.2.1))) =
        ((fun i => "noticia_" ++ natRepr (i + 1)) ∘ Prod.fst) := rfl
    rw [hcomp, ← List.map_map, List.enum_map_fst]
    have hz : (items.zip caps).length = items.length := by
      simp [List.length_zip, hlen]
    rw [hz]

/-! ### Field extraction (fetch_gaming_news per-article loop, lines 231-302)

A parsed element is modelled by its stripped text (what
get_text(strip=True) returns) and its attribute list. A fragment (one
article's markup block, or a whole detail page) is modelled by its
select-one table: which selector yields which truthy first match, if any;
a selector absent from the table yields none. -/

structure Element where
  text : String
  attrs : List (String × String)
deriving DecidableEq

abbrev Fragment := List (String × Element)

/-- article.select_one(sel) restricted to truthy results. -/
def selectOne (frag : Fragment) (sel : String) : Option Element :=
  (frag.find? (fun p => p.1 == sel)).map (fun p => p.2)

/-- The per-field selector loop: try each selector in order and stop at the
first one whose select_one yields a (truthy) element. -/
def firstMatch (frag : Fragment) : List String → Option Element
  | [] => none
  | sel :: rest =>
    match selectOne frag sel with
    | some e => some e
    | none => firstMatch frag rest

def title_selectors : List String :=
  ["h2.titular a", "h2 a", "h1 a", "h3 a", ".title a", "a.title", "a[title]"]

def summary_selectors : List String :=
  ["p.texto", "p.description", ".summary", ".excerpt", "p:not(.meta)", "p"]

def image_selectors : List String :=
  ["img", ".image img", ".thumbnail img", "figure img"]

def author_selectors : List String :=
  [".autor", ".author", ".meta .author", "span.author"]

def date_selectors : List String :=
  [".fecha", ".date", ".meta .date", "time", "span.date"]

def BASE_URL : String := "https://vandal.elespanol.com"

/-- str.startswith(('http://', 'https://')), over the character list so
the kernel can evaluate it. -/
def startsWithHttp (s : String) : Bool :=
  "http://".data.isPrefixOf s.data || "https://".data.isPrefixOf s.data

/-- Attribute lookup on an element (tag[attr] when present). -/
def attrValue (e : Element) (a : String) : Option String :=
  (e.attrs.find? (fun p => p.1 == a)).map (fun p => p.2)

/-- Line 243: the title is the text of the first matching title selector. -/
def extract_title (frag : Fragment) : Option String :=
  (firstMatch frag title_selectors).map (fun e => e.text)

/-- Lines 245-252: summary, with the documented default when no selector
matches at all. -/
def extract_summary (frag : Fragment) : String :=
  match firstMatch frag summary_selectors with
  | some e => e.text
  | none => "Sin resumen disponible"

/-- Lines 254-256: the href of the title tag ('' when absent), rewritten to
an absolute URL when non-empty and relative. -/
def extract_link (title_tag : Element) : String :=
  let link := (attrValue title_tag "href").getD ""
  if link ≠ "" ∧ startsWithHttp link = false then BASE_URL ++ link else link

/-- Line 269: a whitespace-delimited candidate list keeps its first token. -/
def firstToken (s : String) : String :=
  if s.data.contains ' ' then ⟨s.data.takeWhile (fun c => !(c == ' '))⟩ else s

def image_attr_order : List String := ["src", "data-src", "data-lazy-src", "data-srcset"]

/-- Lines 266-270: the first present attribute among the source variants. -/
def firstImageAttr (e : Element) : List String → Option String
  | [] => none
  | a :: rest =>
    match attrValue e a with
    | some v => some (firstToken v)
    | none => firstImageAttr e rest

/-- Lines 258-273: image URL of the first matching image selector,
absolutized when truthy and relative. -/
def extract_image (frag : Fragment) : Option String :=
  let image_url :=
    match firstMatch frag image_selectors with
    | some e => firstImageAttr e image_attr_order
    | none => none
  match image_url with
  | some u => if u ≠ "" ∧ startsWithHttp u = false then some (BASE_URL ++ u) else some u
  | none => none

/-- Lines 275-282. -/
def extract_author (frag : Fragment) : Option String :=
  (firstMatch frag author_selectors).map (fun e => e.text)

/-- Lines 284-291. -/
def extract_date (frag : Fragment) : Option String :=
  (firstMatch frag date_selectors).map (fun e => e.text)

/-- Lines 231-302: one article fragment to an optional record; a record is
emitted only when both title and link are non-empty. -/
def extract_news_item (frag : Fragment) : Option NewsItem :=
  match firstMatch frag title_selectors with
  | none => none
  | some title_tag =>
    let title := title_tag.text
    let link := extract_link title_tag
    if title ≠ "" ∧ link ≠ "" then
      some (mkNewsItem title (extract_summary frag) link (extract_image frag)
        (extract_author frag) (extract_date frag))
    else none

/-- A fragment whose first summary locator matches a truthy element with
empty stripped text (for example a paragraph holding only whitespace)
while the second locator holds real text. -/
def c5_frag : Fragment :=
  [("p.texto", ⟨"", []⟩), ("p.description", ⟨"hola resumen", []⟩)]

/-- C5 counterexample: on c5_frag the first summary locator yields an
empty-text match and the second a non-empty one, yet the extractor
returns the empty text of the first — not the second locator's value and
not the documented default either, refuting first-non-empty-wins. -/
theorem c5_fallback_counterexample :
    summary_selectors.take 2 = ["p.texto", "p.description"] ∧
    selectOne c5_frag "p.texto" = some ⟨"", []⟩ ∧
    selectOne c5_frag "p.description" = some ⟨"hola resumen", []⟩ ∧
    extract_summary c5_frag = "" ∧
    extract_summary c5_frag ≠ "hola resumen" ∧
    extract_summary c5_frag ≠ "Sin resumen disponible" := by
  refine ⟨rfl, rfl, rfl, rfl, by decide, by decide⟩

theorem firstMatch_none_of_all (frag : Fragment) :
    ∀ sels, (∀ s, s ∈ sels → selectOne frag s = none) → firstMatch frag sels = none := by
  intro sels
  induction sels with
  | nil => intro _; rfl
  | cons s rest ih =>
    intro h
    have hs := h s (List.mem_cons_self s rest)
    simp only [firstMatch, hs]
    exact ih (fun x hx => h x (List.mem_cons_of_mem _ hx))

/-- C5 amended: the first locator that matches an element wins — even when
its stripped text is empty; a field is absent (summary: the default
sentinel) exactly when no locator of its chain matches; in particular,
when the first locator matches nothing the chain falls through to the
second, whose value is returned. -/
theorem c5_fallback_first_match :
    (∀ frag s rest, selectOne frag s = none →
      firstMatch frag (s :: rest) = firstMatch frag rest) ∧
    (∀ frag s rest e, selectOne frag s = some e →
      firstMatch frag (s :: rest) = some e) ∧
    (∀ frag, (∀ s, s ∈ summary_selectors → selectOne frag s = none) →
      extract_summary frag = "Sin resumen disponible") ∧
    (∀ frag e, firstMatch frag summary_selectors = some e →
      extract_summary frag = e.text) ∧
    (∀ frag, (∀ s, s ∈ author_selectors → selectOne frag s = none) →
      extract_author frag = none) ∧
    (∀ frag e, firstMatch frag author_selectors = some e →
      extract_author frag = some e.text) := by
  refine ⟨?_, ?_, ?_, ?_, ?_, ?_⟩
  · intro frag s rest h
    simp [firstMatch, h]
  · intro frag s rest e h
    simp [firstMatch, h]
  · intro frag h
    unfold extract_summary
    rw [firstMatch_none_of_all frag _ h]
  · intro frag e h
    unfold extract_summary
    rw [h]
  · intro frag h
    unfold extract_author
    rw [firstMatch_none_of_all frag _ h]
    rfl
  · intro frag e h
    unfold extract_author
    rw [h]
    rfl

/-! ### Detail enrichment (fetch_article_details, lines 316-378) -/

def detail_summary_selectors : List String :=
  ["div.entradilla", ".article-summary", ".summary", ".intro", ".excerpt",
   "meta[name=\"description\"]"]

def detail_image_selectors : List String :=
  ["div.imagen img", ".article-featured-image img", ".featured-image img",
   "article img", ".content img", "meta[property=\"og:image\"]"]

/-- Lines 345-352: overwrite summary from the first matching detail-page
selector (meta description reads the content attribute). -/
def applyDetailSummary (soup : Fragment) (item : NewsItem) : List String → NewsItem
  | [] => item
  | sel :: rest =>
    match selectOne soup sel with
    | none => applyDetailSummary soup item rest
    | some e =>
      { item with summary :=
          if sel = "meta[name=\"description\"]" then (attrValue e "content").getD ""
          else e.text }

/-- Lines 354-373: fill the image URL from the first matching detail-page
selector, absolutizing a truthy relative result. -/
def applyDetailImage (soup : Fragment) (item : NewsItem) : List String → NewsItem
  | [] => item
  | sel :: rest =>
    match selectOne soup sel with
    | none => applyDetailImage soup item rest
    | some e =>
      let item1 :=
        if sel = "meta[property=\"og:image\"]" then
          { item with image_url := some ((attrValue e "content").getD "") }
        else if (attrValue e "data-src").isSome then
          { item with image_url := attrValue e "data-src" }
        else if (attrValue e "src").isSome then
          { item with image_url := attrValue e "src" }
        else item
      if (item1.image_url.getD "") ≠ "" ∧ startsWithHttp (item1.image_url.getD "") = false then
        { item1 with image_url := some (BASE_URL ++ item1.image_url.getD "") }
      else item1

/-- fetch_article_details: the sleep, GET, status check, debug write and
parse all happen before the record is touched, so any raise among them is
modelled by an error value reaching the enricher; ok carries the parsed
detail page, from which summary is overwritten and a missing (falsy)
image URL filled in. -/
def fetch_article_details (item : NewsItem) (page : Except String Fragment) : NewsItem :=
  if item.link = "" then item
  else
    match page with
    | .error _ => item
    | .ok soup =>
      let item1 := applyDetailSummary soup item detail_summary_selectors
      if item1.image_url.getD "" = "" then applyDetailImage soup item1 detail_image_selectors
      else item1

/-- C6: a failed detail fetch or parse leaves the record unchanged — every
field, summary and image_url included, keeps its value from before the
enrichment attempt. -/
theorem c6_enrichment_atomic_on_error (item : NewsItem) (err : String) :
    fetch_article_details item (Except.error err) = item := by
  unfold fetch_article_details
  split <;> rfl

/-! ### Quota-driven page loop (get_unique_news, lines 410-442)

The loop owns the history, the accumulating new_news and duplicate_news
lists; the listing fetch is abstracted as the per-page record list
fetch_gaming_news returns (empty for a failed or exhausted page). The
history travels through the loop state so that its preservation is a
theorem rather than a modelling assumption. -/

structure ScrapeState where
  hist : NewsHistory
  new_news : List NewsItem
  duplicate_news : List NewsItem
deriving DecidableEq

/-- Lines 427-436: the for-loop over one page's records — stop when the
quota is full, otherwise partition by is_duplicate. -/
def guScan (count : Nat) : List NewsItem → ScrapeState → ScrapeState
  | [], s => s
  | item :: rest, s =>
    if s.new_news.length ≥ count then s
    else if s.hist.is_duplicate item then
      guScan count rest { s with duplicate_news := s.duplicate_news ++ [item] }
    else
      guScan count rest { s with new_news := s.new_news ++ [item] }

/-- Lines 420-440: the while-loop over pages 1..max_pages (5); an empty
page only advances the page counter. Fuel 5 runs the loop exactly as the
while condition current_page <= 5 does. -/
def guLoop (count : Nat) (fetch : Nat → List NewsItem) : Nat → Nat → ScrapeState → ScrapeState
  | 0, _, s => s
  | fuel + 1, page, s =>
    if s.new_news.length < count ∧ page ≤ 5 then
      if fetch page = [] then guLoop count fetch fuel (page + 1) s
      else guLoop count fetch fuel (page + 1) (guScan count (fetch page) s)
    else s

/-- get_unique_news: the pair (new_news, duplicate_news) the method
returns. -/
def get_unique_news (h : NewsHistory) (count : Nat) (fetch : Nat → List NewsItem) :
    List NewsItem × List NewsItem :=
  let s := guLoop count fetch 5 1 ⟨h, [], []⟩
  (s.new_news, s.duplicate_news)

/-- The history as the loop leaves it. -/
def get_unique_news_hist (h : NewsHistory) (count : Nat) (fetch : Nat → List NewsItem) :
    NewsHistory :=
  (guLoop count fetch 5 1 ⟨h, [], []⟩).hist

theorem guScan_hist (count : Nat) :
    ∀ (l : List NewsItem) (s : ScrapeState), (guScan count l s).hist = s.hist := by
  intro l
  induction l with
  | nil => intro s; rfl
  | cons item rest ih =>
    intro s
    simp only [guScan]
    split
    · rfl
    · split
      · exact ih _
      · exact ih _

theorem guLoop_hist (count : Nat) (fetch : Nat → List NewsItem) :
    ∀ (fuel page : Nat) (s : ScrapeState), (guLoop count fetch fuel page s).hist = s.hist := by
  intro fuel
  induction fuel with
  | zero => intro page s; rfl
  | succ fuel ih =>
    intro page s
    simp only [guLoop]
    split
    · split
      · exact ih _ _
      · rw [ih, guScan_hist]
    · rfl

theorem guScan_stop (count : Nat) :
    ∀ (l : List NewsItem) (s : ScrapeState), count ≤ s.new_news.length →
      guScan count l s = s := by
  intro l
  induction l with
  | nil => intro s _; rfl
  | cons item rest _ =>
    intro s hc
    simp only [guScan]
    rw [if_pos hc]

theorem guScan_append (count : Nat) :
    ∀ (l₁ l₂ : List NewsItem) (s : ScrapeState),
      guScan count (l₁ ++ l₂) s = guScan count l₂ (guScan count l₁ s) := by
  intro l₁
  induction l₁ with
  | nil => intro l₂ s; rfl
  | cons item rest ih =>
    intro l₂ s
    by_cases hc : count ≤ s.new_news.length
    · rw [guScan_stop count ((item :: rest) ++ l₂) s hc, guScan_stop count (item :: rest) s hc,
        guScan_stop count l₂ s hc]
    · rw [List.cons_append]
      simp only [guScan]
      rw [if_neg hc, if_neg hc]
      split
      · exact ih l₂ _
      · exact ih l₂ _

/-- The page loop is the record-scan of the concatenation of pages
page..page+fuel-1, provided the fuel matches the page budget. -/
theorem guLoop_eq_scan (count : Nat) (fetch : Nat → List NewsItem) :
    ∀ (fuel page : Nat) (s : ScrapeState), page + fuel = 6 →
      guLoop count fetch fuel page s =
        guScan count (((List.range fuel).map (fun k => fetch (page + k))).flatten) s := by
  intro fuel
  induction fuel with
  | zero =>
    intro page s _
    rfl
  | succ fuel ih =>
    intro page s hp
    have hpage : page ≤ 5 := by omega
    have hmaps : ((List.range (fuel + 1)).map (fun k => fetch (page + k))).flatten =
        fetch page ++ ((List.range fuel).map (fun k => fetch (page + 1 + k))).flatten := by
      rw [List.range_succ_eq_map, List.map_cons, List.map_map, List.flatten_cons]
      have hfun : ((fun k => fetch (page + k)) ∘ Nat.succ) = (fun k => fetch (page + 1 + k)) := by
        funext k
        simp only [Function.comp]
        congr 1
        omega
      rw [hfun]
      simp only [Nat.add_zero]
    by_cases hlt : s.new_news.length < count
    · simp only [guLoop]
      rw [if_pos (And.intro hlt hpage), hmaps, guScan_append]
      by_cases hempty : fetch page = []
      · rw [if_pos hempty, hempty, ih (page + 1) s (by omega)]
        rfl
      · rw [if_neg hempty, ih (page + 1) _ (by omega)]
    · simp only [guLoop]
      rw [if_neg (by intro hand; exact hlt hand.1)]
      rw [guScan_stop count _ s (by omega)]

/-- The scan partitions a prefix of the record stream by is_duplicate,
stopping exactly when the quota of new records is reached. -/
theorem guScan_filter (count : Nat) :
    ∀ (l : List NewsItem) (h : NewsHistory) (n d : List NewsItem),
    ∃ pre suf, l = pre ++ suf ∧
      guScan count l ⟨h, n, d⟩ =
        ⟨h, n ++ pre.filter (fun x => !(h.is_duplicate x)),
          d ++ pre.filter (fun x => h.is_duplicate x)⟩ ∧
      (n ++ pre.filter (fun x => !(h.is_duplicate x))).length ≤ max count n.length ∧
      (suf = [] ∨
        (n ++ pre.filter (fun x => !(h.is_duplicate x))).length = max count n.length) := by
  intro l
  induction l with
  | nil =>
    intro h n d
    exact ⟨[], [], rfl, by simp [guScan], by simp, Or.inl rfl⟩
  | cons item rest ih =>
    intro h n d
    by_cases hstop : count ≤ n.length
    · refine ⟨[], item :: rest, rfl, ?_, by simp, Or.inr ?_⟩
      · simp only [guScan]
        rw [if_pos (show (ScrapeState.mk h n d).new_news.length ≥ count from hstop)]
        simp
      · simp [Nat.max_eq_right hstop]
    · have hlt : n.length < count := by omega
      by_cases hdup : h.is_duplicate item = true
      · obtain ⟨pre, suf, heq, hscan, hbound, hstop2⟩ := ih h n (d ++ [item])
        refine ⟨item :: pre, suf, by simp [heq], ?_, ?_, ?_⟩
        · have hstep : guScan count (item :: rest) ⟨h, n, d⟩ =
              guScan count rest ⟨h, n, d ++ [item]⟩ := by
            simp only [guScan]
            rw [if_neg (show ¬ (ScrapeState.mk h n d).new_news.length ≥ count from hstop),
              if_pos hdup]
          rw [hstep, hscan]
          simp [List.filter_cons, hdup]
        · simpa [List.filter_cons, hdup] using hbound
        · simpa [List.filter_cons, hdup] using hstop2
      · have hdup2 : h.is_duplicate item = false := by
          revert hdup
          cases h.is_duplicate item <;> simp
        obtain ⟨pre, suf, heq, hscan, hbound, hstop2⟩ := ih h (n ++ [item]) d
        have hmax1 : max count (n ++ [item]).length = count := by
          rw [List.length_append]
          exact Nat.max_eq_left (by simp; omega)
        have hmax2 : max count n.length = count := Nat.max_eq_left (by omega)
        refine ⟨item :: pre, suf, by simp [heq], ?_, ?_, ?_⟩
        · have hstep : guScan count (item :: rest) ⟨h, n, d⟩ =
              guScan count rest ⟨h, n ++ [item], d⟩ := by
            simp only [guScan]
            rw [if_neg (show ¬ (ScrapeState.mk h n d).new_news.length ≥ count from hstop),
              if_neg (by rw [hdup2]; exact Bool.false_ne_true)]
          rw [hstep, hscan]
          simp [List.filter_cons, hdup2]
        · have := hbound
          rw [hmax1] at this
          rw [hmax2]
          simpa [List.filter_cons, hdup2, List.append_assoc] using this
        · rcases hstop2 with hsuf | hlen
          · exact Or.inl hsuf
          · refine Or.inr ?_
            rw [hmax1] at hlen
            rw [hmax2]
            simpa [List.filter_cons, hdup2, List.append_assoc] using hlen

/-- C2: over any history and any page sequence, the collector scans a
prefix of the five-page record stream in order, sends a scanned record to
dup exactly when its id is in the history and to new otherwise, never
collects more than the target, and when it left records unscanned it did
so because the target was reached exactly. -/
theorem c2_quota_partition (h : NewsHistory) (count : Nat) (fetch : Nat → List NewsItem) :
    ∃ pre suf,
      ((List.range 5).map (fun k => fetch (1 + k))).flatten = pre ++ suf ∧
      (get_unique_news h count fetch).1 = pre.filter (fun x => !(h.is_duplicate x)) ∧
      (get_unique_news h count fetch).2 = pre.filter (fun x => h.is_duplicate x) ∧
      (get_unique_news h count fetch).1.length ≤ count ∧
      (suf = [] ∨ (get_unique_news h count fetch).1.length = count) := by
  obtain ⟨pre, suf, heq, hscan, hbound, hstop⟩ :=
    guScan_filter count (((List.range 5).map (fun k => fetch (1 + k))).flatten) h [] []
  have hloop := guLoop_eq_scan count fetch 5 1 ⟨h, [], []⟩ (by norm_num)
  have h1 : (get_unique_news h count fetch).1 = pre.filter (fun x => !(h.is_duplicate x)) := by
    show (guLoop count fetch 5 1 ⟨h, [], []⟩).new_news = _
    rw [hloop, hscan]
    simp
  have h2 : (get_unique_news h count fetch).2 = pre.filter (fun x => h.is_duplicate x) := by
    show (guLoop count fetch 5 1 ⟨h, [], []⟩).duplicate_news = _
    rw [hloop, hscan]
    simp
  refine ⟨pre, suf, heq, h1, h2, ?_, ?_⟩
  · rw [h1]
    simpa using hbound
  · rcases hstop with hsuf | hlen
    · exact Or.inl hsuf
    · refine Or.inr ?_
      rw [h1]
      simpa using hlen

/-- C8: an empty listing page makes the loop advance to the next page and
continue, and five empty pages at target 3 terminate normally with the
short result (no new and no duplicate records). -/
theorem c8_empty_page_short_result (h : NewsHistory) (count : Nat)
    (fetch : Nat → List NewsItem) (page fuel : Nat) (s : ScrapeState)
    (hempty : fetch page = []) (hlt : s.new_news.length < count) (hpage : page ≤ 5) :
    guLoop count fetch (fuel + 1) page s = guLoop count fetch fuel (page + 1) s ∧
    get_unique_news h 3 (fun _ => ([] : List NewsItem)) = ([], []) := by
  constructor
  · simp only [guLoop]
    rw [if_pos (And.intro hlt hpage), if_pos hempty]
  · rfl

/-- C8 witness: the empty-page step and the five-empty-pages run at
concrete inputs. -/
theorem c8_empty_page_short_result_witness :
    (fun _ : Nat => ([] : List NewsItem)) 1 = [] ∧
    (ScrapeState.mk ⟨[], 500⟩ [] []).new_news.length < 3 ∧ (1 : Nat) ≤ 5 ∧
    (guLoop 3 (fun _ => []) 5 1 ⟨⟨[], 500⟩, [], []⟩ =
        guLoop 3 (fun _ => []) 4 2 ⟨⟨[], 500⟩, [], []⟩ ∧
      get_unique_news ⟨[], 500⟩ 3 (fun _ => []) = ([], [])) :=
  ⟨rfl, by decide, by decide,
    c8_empty_page_short_result ⟨[], 500⟩ 3 (fun _ => []) 1 4 ⟨⟨[], 500⟩, [], []⟩ rfl
      (by decide) (by decide)⟩

theorem count_filter_of_pos {α : Type} [DecidableEq α] (p : α → Bool) (x : α)
    (hx : p x = true) : ∀ l : List α, (l.filter p).count x = l.count x := by
  intro l
  induction l with
  | nil => rfl
  | cons a t ih =>
    by_cases ha : p a = true
    · rw [List.filter_cons_of_pos ha, List.count_cons, List.count_cons, ih]
    · rw [List.filter_cons_of_neg ha, ih, List.count_cons]
      have hax : (a == x) = false := by
        apply beq_false_of_ne
        intro hcon
        exact ha (hcon ▸ hx)
      rw [hax]
      simp

/-- C9: the quota-collection phase leaves the history exactly as loaded —
ids are inserted only later, after enrichment — and consequently an
unseen record keeps its full multiplicity in the scanned prefix: every
occurrence lands in the new list, with no intra-run deduplication. -/
theorem c9_collection_preserves_history (h : NewsHistory) (count : Nat)
    (fetch : Nat → List NewsItem) :
    get_unique_news_hist h count fetch = h ∧
    ∃ pre suf,
      ((List.range 5).map (fun k => fetch (1 + k))).flatten = pre ++ suf ∧
      ∀ x : NewsItem, h.is_duplicate x = false →
        (get_unique_news h count fetch).1.count x = pre.count x := by
  constructor
  · show (guLoop count fetch 5 1 ⟨h, [], []⟩).hist = h
    rw [guLoop_hist]
  · obtain ⟨pre, suf, heq, hscan, _, _⟩ :=
      guScan_filter count (((List.range 5).map (fun k => fetch (1 + k))).flatten) h [] []
    have hloop := guLoop_eq_scan count fetch 5 1 ⟨h, [], []⟩ (by norm_num)
    refine ⟨pre, suf, heq, ?_⟩
    intro x hx
    have h1 : (get_unique_news h count fetch).1 = pre.filter (fun x => !(h.is_duplicate x)) := by
      show (guLoop count fetch 5 1 ⟨h, [], []⟩).new_news = _
      rw [hloop, hscan]
      simp
    rw [h1]
    exact count_filter_of_pos _ x (by rw [hx]; rfl) pre

/-! ### Concrete scenario checks of the loop and the extractor -/

def itemA : NewsItem := ⟨"A", "", "https://vandal.elespanol.com/a", none, none, none, "ida"⟩

def itemB : NewsItem := ⟨"B", "", "https://vandal.elespanol.com/b", none, none, none, "idb"⟩

/-- Scenario of the spec: history preloaded with A's id, listing [A, B],
target 1: A goes to dup, B to new. -/
theorem quota_scenario_dup_then_new :
    get_unique_news ⟨["ida"], 500⟩ 1 (fun p => if p = 1 then [itemA, itemB] else []) =
      ([itemB], [itemA]) := by
  decide

/-- An unseen record occurring twice in one run is collected twice: the
loop deduplicates only against the pre-run history. -/
theorem intra_run_duplicate_collected_twice :
    get_unique_news ⟨[], 500⟩ 2 (fun p => if p = 1 then [itemA, itemA] else []) =
      ([itemA, itemA], []) := by
  decide

/-- End-to-end extraction of one concrete fragment: second title selector
matches, summary falls back to its default, the relative href is
absolutized, and the id is the digest of title and link. -/
theorem extract_news_item_concrete :
    extract_news_item [("h2 a", ⟨"Zelda: nueva entrega", [("href", "/noticia/n.123")]⟩)] =
      some (mkNewsItem "Zelda: nueva entrega" "Sin resumen disponible"
        "https://vandal.elespanol.com/noticia/n.123" none none none) := by
  decide
